import Mathlib

/-!
# Verification of the incident-bot detection and state core

A shallow embedding of the rule-based incident bot:
string helpers mirroring the Python primitives used by the source,
the vocabulary tables, the intent classifier, the field extractors,
the action-item ledger, the per-channel incident state store and the
message-processing pipeline, followed by theorems about the claims.

Conventions:
* Python `str` is Lean `String` (ASCII case conversion is modelled
  explicitly since all vocabulary is ASCII).
* Python `None`-able values are `Option`; a raised exception is an
  `Except.error` result.
* `datetime.now()` timestamps are passed in as explicit `now` / `today`
  string parameters.
-/

/-- Python whitespace for `str.strip` / `\s` (ASCII range). -/
def isPySpace (c : Char) : Bool :=
  c == ' ' || c == '\t' || c == '\n' || c == '\r' ||
    c == Char.ofNat 11 || c == Char.ofNat 12

/-- Word character for the regex `\b` boundary (`[A-Za-z0-9_]`; the source
only ever meets ASCII here). -/
def isWordChar (c : Char) : Bool :=
  c.isAlphanum || c == '_'

/-- `str.strip()` on a character list: drop whitespace from both ends. -/
def stripChars (cs : List Char) : List Char :=
  ((cs.dropWhile isPySpace).reverse.dropWhile isPySpace).reverse

/-- Python `str.strip()`. -/
def pyStrip (s : String) : String :=
  String.mk (stripChars s.data)

/-- ASCII lower-casing of one character (Python `str.lower` restricted to
the ASCII texts handled by the bot). -/
def lowerCh (c : Char) : Char :=
  if 'A' ≤ c ∧ c ≤ 'Z' then Char.ofNat (c.toNat + 32) else c

/-- Python `str.lower()` (ASCII). -/
def pyLower (s : String) : String :=
  String.mk (s.data.map lowerCh)

/-- Does `needle` start `hay`? (prefix test on character lists). -/
def startsWithL : List Char → List Char → Bool
  | [], _ => true
  | _ :: _, [] => false
  | a :: as, b :: bs => a == b && startsWithL as bs

/-- Python substring containment `needle in hay` on character lists. -/
def containsSub : List Char → List Char → Bool
  | [], needle => needle.isEmpty
  | h :: t, needle => startsWithL needle (h :: t) || containsSub t needle

/-- Python `needle in hay` on strings. -/
def strIn (needle hay : String) : Bool :=
  containsSub hay.data needle.data

/-- Python `str.title()` for one character given whether the previous
character was alphabetic (cased). -/
def pyTitleAux : Bool → List Char → List Char
  | _, [] => []
  | prevAlpha, c :: rest =>
    (if c.isAlpha then
       (if prevAlpha then lowerCh c
        else if 'a' ≤ c ∧ c ≤ 'z' then Char.ofNat (c.toNat - 32) else c)
     else c) :: pyTitleAux c.isAlpha rest

/-- Python `str.title()` (ASCII). -/
def pyTitle (s : String) : String :=
  String.mk (pyTitleAux false s.data)

/-- Python `text.split("\n")`. -/
def splitNlAux : List Char → List Char → List String
  | [], acc => [String.mk acc.reverse]
  | '\n' :: rest, acc => String.mk acc.reverse :: splitNlAux rest []
  | c :: rest, acc => splitNlAux rest (c :: acc)

def splitNl (s : String) : List String :=
  splitNlAux s.data []

/-!
## Vocabulary tables (`src/vocabulary/incident_vocabulary.py`)
-/

def INCIDENT_KEYWORDS : List String :=
  ["bug", "issue", "defect", "regression", "escalation", "problem", "failure"]

def URGENCY_KEYWORDS : List String :=
  ["p0", "p1", "sev0", "sev1", "critical", "urgent", "immediately", "asap",
   "high priority", "impacting customers", "prod down", "blocker"]

def STRONG_ACTION_PHRASES : List String :=
  ["i will", "i'll", "i will take", "i'll take", "i can take",
   "i will handle", "i'll handle", "i can handle",
   "i will own", "i'll own", "i can own",
   "i am taking", "i'm taking", "taking this", "taking it",
   "taking ownership", "owning this", "on it", "i am on it", "i'm on it",
   "i am looking into", "i'm looking into", "looking into this",
   "looking into it", "i will look into", "i'll look into",
   "taking a look", "i will take a look", "i'll take a look",
   "i can take a look", "investigating", "triaging", "debugging",
   "root causing", "rca in progress",
   "working on", "working on it", "working on fix", "fix in progress",
   "fix underway", "building a fix", "coding a fix", "preparing a fix",
   "will fix", "i will fix", "i'll fix", "fixing", "pushing a fix",
   "deploying a fix", "hotfix", "patch", "deploying", "rolling out",
   "rollout", "rolling back", "rollback", "reverting", "revert",
   "mitigating", "mitigation", "applying workaround", "workaround in place",
   "restarting", "restart",
   "please check", "pls check", "please review", "pls review",
   "please investigate", "pls investigate", "please look into",
   "pls look into", "please verify", "pls verify", "please confirm",
   "pls confirm", "please share", "pls share", "please send", "pls send",
   "please update", "pls update", "please take a look", "pls take a look",
   "could you please", "can you please", "can you", "could you",
   "assigned to", "assigning to", "assign to", "owner:", "action:",
   "todo:", "next step:",
   "expedite"]

def SOFT_PHRASES : List String :=
  ["maybe", "i think", "looks like", "we should", "let's see", "can we",
   "could we", "might be", "probably", "it seems"]

def OWNER_ASSIGNMENT_PHRASES : List String :=
  ["will work on", "is taking", "assigned to", "will handle", "owns this",
   "looking into this", "have a look"]

def ETA_PHRASES : List String :=
  ["by", "complete by", "will complete by", "target to complete by",
   "expected by", "Finish it by"]

def EOD_KEYWORDS : List String :=
  ["eod", "end of day"]

def ASSIGNMENT_QUESTION_PHRASES : List String :=
  ["can you take this", "can you handle this", "can you look into this",
   "can you take this up"]

/-- `STATUS_PHRASES` dict in insertion order. -/
def STATUS_PHRASES : List (String × List String) :=
  [("investigating", ["investigating", "looking into", "analyzing"]),
   ("rca done", ["rca done", "root cause identified", "root cause found"]),
   ("working on fix", ["working on fix", "fix in progress", "fix underway"]),
   ("pr raised", ["pr raised", "pull request raised", "pr created"]),
   ("monitoring", ["monitoring", "observing"]),
   ("resolved", ["resolved", "fixed", "issue closed"])]

/-!
## Intent classifier (`src/utils/incident_classifier.py`)
-/

def intentScoreOf (line : String) : Nat :=
  (INCIDENT_KEYWORDS.filter (fun k => strIn k (pyLower line))).length

def urgencyScoreOf (line : String) : Nat :=
  (URGENCY_KEYWORDS.filter (fun u => strIn u (pyLower line))).length

def classify_incident_intent (line : String) : String :=
  let intent_score := intentScoreOf line
  let urgency_score := urgencyScoreOf line
  if 1 ≤ intent_score ∧ 1 ≤ urgency_score then "HIGH"
  else if 1 ≤ intent_score ∧ urgency_score = 0 then "MEDIUM"
  else "LOW"

example : classify_incident_intent "there is a regression in checkout" = "MEDIUM" := by decide
example : classify_incident_intent "P1 bug impacting customers, urgent!" = "HIGH" := by decide
example : classify_incident_intent "all good" = "LOW" := by decide

/-!
## Mention scanning (`MENTION_REGEX = <@([A-Z0-9]+)>`)
-/

def isMentionChar (c : Char) : Bool :=
  ('A' ≤ c && c ≤ 'Z') || c.isDigit

/-- `re.findall(MENTION_REGEX, text)`: every `<@ID>` group in order.
Matches cannot overlap (a match contains a single `<`), so a per-position
scan coincides with the non-overlapping `findall`. -/
def findMentions : List Char → List String
  | [] => []
  | c :: rest =>
    (if c == '<' then
       match rest with
       | '@' :: rest2 =>
         (match rest2.takeWhile isMentionChar, rest2.dropWhile isMentionChar with
          | ident :: more, '>' :: _ => [String.mk (ident :: more)]
          | _, _ => [])
       | _ => []
     else []) ++ findMentions rest

/-!
## Abstract detection (`src/utils/abstract_detection.py`)
-/

/-- `\b` at the front of the remaining characters. -/
def wordBoundaryAt : List Char → Bool
  | [] => true
  | c :: _ => !isWordChar c

/-- `re.search(r"\bui\b", t, IGNORECASE)` as a left-to-right scan carrying
the previous character for the leading boundary. -/
def wordUIAux : Option Char → List Char → Bool
  | _, [] => false
  | prev, c :: rest =>
    ((lowerCh c == 'u') &&
       (match prev with | none => true | some p => !isWordChar p) &&
       (match rest with
        | d :: rest2 => (lowerCh d == 'i') && wordBoundaryAt rest2
        | [] => false))
    || wordUIAux (some c) rest

def extract_abstract (text : String) : Option String :=
  let t := pyStrip text
  if t = "" then none
  else
    let lower := pyLower t
    if strIn "webui" lower || strIn "web ui" lower || strIn "frontend" lower ||
       strIn "front-end" lower || strIn "dashboard" lower ||
       strIn "console" lower || wordUIAux none t.data then
      some "WebUI Bug"
    else if ["outage", "downtime", "prod down", "service down"].any
        (fun k => strIn k lower) then
      some "Service Outage"
    else if ["login", "sso", "auth", "authentication", "authorization",
        "token expired"].any (fun k => strIn k lower) then
      some "Auth/Login Issue"
    else if ["bug", "issue", "defect", "regression", "failure",
        "error"].any (fun k => strIn k lower) then
      some "Software Bug"
    else none

/-!
## Owner detection (`src/utils/owner_detection.py`)
-/

def detect_owner_question (text : String) : Bool :=
  ASSIGNMENT_QUESTION_PHRASES.any (fun phrase => strIn phrase (pyLower text))

def extract_owner (text sender : String) : Option String :=
  let lowered := pyLower text
  if OWNER_ASSIGNMENT_PHRASES.any (fun phrase => strIn phrase lowered) then
    match findMentions text.data with
    | m :: _ => some ("<@" ++ m ++ ">")
    | [] => some sender
  else if strIn "owner" lowered then
    match findMentions text.data with
    | m :: _ => some ("<@" ++ m ++ ">")
    | [] => none
  else none

/-!
## Status detection (`src/utils/status_detection.py`)
-/

def statusGo (lower : String) : List (String × List String) → Option String
  | [] => none
  | (status, phrases) :: rest =>
    if phrases.any (fun phrase => strIn phrase lower) then some (pyTitle status)
    else statusGo lower rest

def extract_status (text : String) : Option String :=
  statusGo (pyLower text) STATUS_PHRASES

/-!
## Jira detection (`src/utils/jira_detection.py`)
-/

def isUpperCh (c : Char) : Bool := 'A' ≤ c && c ≤ 'Z'
def isDigitCh (c : Char) : Bool := c.isDigit

/-- Exact literal at the front; returns the remainder. -/
def stripLit : List Char → List Char → Option (List Char)
  | [], cs => some cs
  | l :: ls, c :: cs => if c == l then stripLit ls cs else none
  | _ :: _, [] => none

/-- `[A-Z]{2,10}-\d+` anchored here: greedy letter counts `k, k-1, …, 2`
(the regex engine's backtracking over the bounded repeat), then a literal
`-` and a greedy nonempty digit run. -/
def jiraKeyTry (cs : List Char) : Nat → Option (List Char)
  | 0 => none
  | k + 1 =>
    if k + 1 < 2 then none
    else
      match cs.drop (k + 1) with
      | '-' :: rest =>
        let ds := rest.takeWhile isDigitCh
        if ds.isEmpty then jiraKeyTry cs k
        else some (cs.take (k + 1) ++ '-' :: ds)
      | _ => jiraKeyTry cs k

/-- Variant with the trailing `\b` of `JIRA_KEY_REGEX`. -/
def jiraKeyTryB (cs : List Char) : Nat → Option (List Char)
  | 0 => none
  | k + 1 =>
    if k + 1 < 2 then none
    else
      match cs.drop (k + 1) with
      | '-' :: rest =>
        let ds := rest.takeWhile isDigitCh
        if ds.isEmpty || !wordBoundaryAt (rest.drop ds.length) then
          jiraKeyTryB cs k
        else some (cs.take (k + 1) ++ '-' :: ds)
      | _ => jiraKeyTryB cs k

def jiraUrlKeyAt (cs : List Char) : Option (List Char) :=
  jiraKeyTry cs (min (cs.takeWhile isUpperCh).length 10)

def jiraBareKeyAt (cs : List Char) : Option (List Char) :=
  jiraKeyTryB cs (min (cs.takeWhile isUpperCh).length 10)

def jiraBrowseAt (cs : List Char) : Option (List Char) :=
  match stripLit ['/', 'b', 'r', 'o', 'w', 's', 'e', '/'] cs with
  | some r => jiraUrlKeyAt r
  | none => none

/-- Backtracking of the greedy `[^\s]+` before `/browse/`: try the longest
prefix first (`k` characters), down to one. -/
def jiraUrlTry (cs : List Char) : Nat → Option (List Char)
  | 0 => none
  | k + 1 =>
    match jiraBrowseAt (cs.drop (k + 1)) with
    | some key => some key
    | none => jiraUrlTry cs k

def jiraUrlAfterScheme (r : List Char) : Option (List Char) :=
  match stripLit [':', '/', '/'] r with
  | none => none
  | some r2 => jiraUrlTry r2 ((r2.takeWhile (fun c => !isPySpace c)).length)

/-- `JIRA_URL_REGEX` anchored at the current position (`https?` greedy on
the optional `s`). -/
def jiraUrlAt (cs : List Char) : Option (List Char) :=
  match stripLit ['h', 't', 't', 'p'] cs with
  | none => none
  | some r4 =>
    match r4 with
    | 's' :: r5 =>
      (match jiraUrlAfterScheme r5 with
       | some k => some k
       | none => jiraUrlAfterScheme r4)
    | _ => jiraUrlAfterScheme r4

def jiraUrlSearch : List Char → Option (List Char)
  | [] => none
  | c :: rest =>
    match jiraUrlAt (c :: rest) with
    | some k => some k
    | none => jiraUrlSearch rest

def boundaryBefore : Option Char → Bool
  | none => true
  | some p => !isWordChar p

def jiraKeySearch : Option Char → List Char → Option (List Char)
  | _, [] => none
  | prev, c :: rest =>
    match (if boundaryBefore prev then jiraBareKeyAt (c :: rest) else none) with
    | some k => some k
    | none => jiraKeySearch (some c) rest

def extract_jira_id (text : String) : Option String :=
  match jiraUrlSearch text.data with
  | some k => some (String.mk k)
  | none => (jiraKeySearch none text.data).map String.mk

/-!
## Link detection (`src/utils/link_detection.py`)
-/

def urlBodyChar (c : Char) : Bool :=
  !isPySpace c && c != '<' && c != '>'

/-- Case-insensitive literal at the front; returns the consumed original
characters and the remainder. -/
def stripLitCI : List Char → List Char → Option (List Char × List Char)
  | [], cs => some ([], cs)
  | l :: ls, c :: cs =>
    if lowerCh c == l then (stripLitCI ls cs).map (fun p => (c :: p.1, p.2))
    else none
  | _ :: _, [] => none

/-- `://` then the greedy nonempty `[^\s<>]+` body. -/
def urlSchemeTail (consumed : List Char) (r : List Char) :
    Option (List Char × List Char) :=
  match stripLitCI [':', '/', '/'] r with
  | none => none
  | some (m3, r2) =>
    let body := r2.takeWhile urlBodyChar
    if body.isEmpty then none
    else some (consumed ++ m3 ++ body, r2.drop body.length)

/-- `URL_REGEX = (https?://[^\s<>]+)` (IGNORECASE) anchored at the current
position; returns the matched span and the remainder after it. -/
def urlAt (cs : List Char) : Option (List Char × List Char) :=
  match stripLitCI ['h', 't', 't', 'p'] cs with
  | none => none
  | some (m4, r4) =>
    match r4 with
    | c :: r5 =>
      if lowerCh c == 's' then
        match urlSchemeTail (m4 ++ [c]) r5 with
        | some res => some res
        | none => urlSchemeTail m4 r4
      else urlSchemeTail m4 r4
    | [] => none

theorem length_takeWhile_le (p : Char → Bool) (l : List Char) :
    (l.takeWhile p).length ≤ l.length := by
  induction l with
  | nil => simp [List.takeWhile]
  | cons a t ih =>
      simp only [List.takeWhile]
      cases p a <;> simp <;> omega

theorem stripLitCI_length (ls : List Char) : ∀ cs m r,
    stripLitCI ls cs = some (m, r) → r.length + ls.length = cs.length := by
  induction ls with
  | nil => intro cs m r h; simp [stripLitCI] at h; simp [h.2]
  | cons l ls ih =>
      intro cs m r h
      cases cs with
      | nil => simp [stripLitCI] at h
      | cons c cs =>
          simp only [stripLitCI] at h
          by_cases hc : lowerCh c == l
          · rw [if_pos hc] at h
            cases hrec : stripLitCI ls cs with
            | none => rw [hrec] at h; simp at h
            | some p =>
                obtain ⟨m1, r1⟩ := p
                rw [hrec] at h
                simp only [Option.map_some', Option.some.injEq] at h
                have hih := ih cs m1 r1 hrec
                cases h
                simp only [List.length_cons]
                omega
          · rw [if_neg hc] at h; simp at h

theorem urlSchemeTail_length (pre r m after : List Char)
    (h : urlSchemeTail pre r = some (m, after)) : after.length < r.length := by
  unfold urlSchemeTail at h
  cases h3 : stripLitCI [':', '/', '/'] r with
  | none => rw [h3] at h; simp at h
  | some p =>
      obtain ⟨m3, r2⟩ := p
      rw [h3] at h
      simp only [] at h
      by_cases hb : (r2.takeWhile urlBodyChar).isEmpty
      · simp [hb] at h
      · simp [hb] at h
        have hlen := stripLitCI_length _ _ _ _ h3
        have h1 : 1 ≤ (r2.takeWhile urlBodyChar).length := by
          cases hq : r2.takeWhile urlBodyChar with
          | nil => rw [hq] at hb; simp at hb
          | cons a b => simp [hq]
        have h2 := length_takeWhile_le urlBodyChar r2
        have := h.2
        subst this
        simp [List.length_drop]
        omega

theorem urlAt_length (cs m after : List Char)
    (h : urlAt cs = some (m, after)) : after.length < cs.length := by
  unfold urlAt at h
  cases h4 : stripLitCI ['h', 't', 't', 'p'] cs with
  | none => rw [h4] at h; simp at h
  | some p =>
      obtain ⟨m4, r4⟩ := p
      rw [h4] at h
      have hlen := stripLitCI_length _ _ _ _ h4
      simp only [] at h
      cases r4 with
      | nil => simp at h
      | cons c r5 =>
          by_cases hs : lowerCh c == 's'
          · simp [hs] at h
            cases h5 : urlSchemeTail (m4 ++ [c]) r5 with
            | none =>
                rw [h5] at h
                have hlt := urlSchemeTail_length _ _ _ _ h
                simp only [List.length_cons] at hlen hlt
                omega
            | some q =>
                rw [h5] at h
                obtain ⟨qm, qa⟩ := q
                have hlt := urlSchemeTail_length _ _ _ _ h5
                cases h
                simp only [List.length_cons] at hlen hlt
                omega
          · simp [hs] at h
            have hlt := urlSchemeTail_length _ _ _ _ h
            simp only [List.length_cons] at hlen hlt
            omega

/-- `re.findall(URL_REGEX, text)`: scan left to right; on a match continue
after it (non-overlapping), otherwise advance one character. The `fuel`
argument keeps the recursion structural; by `urlAt_length` every step
strictly shortens the text, so `fuel = cs.length` never runs out. -/
def linksAux : Nat → List Char → List String
  | 0, _ => []
  | _, [] => []
  | fuel + 1, c :: rest =>
    match urlAt (c :: rest) with
    | some (m, after) => String.mk m :: linksAux fuel after
    | none => linksAux fuel rest

def extract_links (text : String) : List String :=
  linksAux text.data.length text.data

/-!
## ETA detection (`src/utils/eta_detection.py`)
-/

def isAsciiAlpha (c : Char) : Bool :=
  ('A' ≤ c && c ≤ 'Z') || ('a' ≤ c && c ≤ 'z')

/-- `\s+[A-Za-z]+` anchored here (both greedy, nonempty). -/
def wsLettersAt (cs : List Char) : Option (List Char) :=
  let ws := cs.takeWhile isPySpace
  if ws.isEmpty then none
  else
    let rest := cs.drop ws.length
    let letters := rest.takeWhile isAsciiAlpha
    if letters.isEmpty then none else some (ws ++ letters)

def dateSuffixList : List (List Char) :=
  [['s', 't'], ['n', 'd'], ['r', 'd'], ['t', 'h']]

/-- `(st|nd|rd|th)?\s+[A-Za-z]+`: try the alternatives in order, then the
empty option. -/
def dateTailGo (cs : List Char) : List (List Char) → Option (List Char)
  | [] => wsLettersAt cs
  | suf :: more =>
    match stripLit suf cs with
    | some r =>
      match wsLettersAt r with
      | some tail => some (suf ++ tail)
      | none => dateTailGo cs more
    | none => dateTailGo cs more

/-- `DATE_REGEX = (\d{1,2}(st|nd|rd|th)?\s+[A-Za-z]+)` anchored here
(greedy two digits first, backtracking to one). -/
def dateAt : List Char → Option (List Char)
  | [] => none
  | d1 :: rest1 =>
    if isDigitCh d1 then
      match rest1 with
      | d2 :: rest2 =>
        if isDigitCh d2 then
          match dateTailGo rest2 dateSuffixList with
          | some t => some (d1 :: d2 :: t)
          | none => (dateTailGo rest1 dateSuffixList).map (fun t => d1 :: t)
        else (dateTailGo rest1 dateSuffixList).map (fun t => d1 :: t)
      | [] => (dateTailGo rest1 dateSuffixList).map (fun t => d1 :: t)
    else none

def dateSearch : List Char → Option (List Char)
  | [] => none
  | c :: rest =>
    match dateAt (c :: rest) with
    | some m => some m
    | none => dateSearch rest

/-- `extract_eta`; `today` stands for `datetime.now().strftime("%d %b %Y")`
at processing time. -/
def extract_eta (today : String) (text : String) : Option String :=
  let lower := pyLower text
  if EOD_KEYWORDS.any (fun eod => strIn eod lower) then
    some ("EOD (" ++ today ++ ")")
  else if ETA_PHRASES.any (fun p => strIn p lower) then
    (dateSearch text.data).map String.mk
  else none

/-!
## Action detection (`src/utils/action_detection.py`)
-/

def curlyApos : Char := Char.ofNat 0x2019

/-- The character class of `_LEADING_ILL_RE`: the source file holds the
mis-decoded bytes of U+2019 (`â`, `€`, `™`) plus the ASCII apostrophe. -/
def aposClassChars : List Char :=
  [Char.ofNat 0xE2, Char.ofNat 0x20AC, Char.ofNat 0x2122, Char.ofNat 39]

/-- `^\s*i[â€™']ll\b` (IGNORECASE): on a match, the remainder after the
matched span. -/
def leadingIllRest (cs : List Char) : Option (List Char) :=
  match cs.dropWhile isPySpace with
  | i :: a :: l1 :: l2 :: rest =>
    if (lowerCh i == 'i') && aposClassChars.contains a &&
        (lowerCh l1 == 'l') && (lowerCh l2 == 'l') && wordBoundaryAt rest then
      some rest
    else none
  | _ => none

/-- `^\s*i\b` (IGNORECASE): on a match, the remainder after the matched
span. -/
def leadingIRest (cs : List Char) : Option (List Char) :=
  match cs.dropWhile isPySpace with
  | i :: rest =>
    if (lowerCh i == 'i') && wordBoundaryAt rest then some rest else none
  | [] => none

def extract_action (text sender : String) : Option String :=
  let normalized :=
    String.mk (text.data.map (fun c => if c == curlyApos then Char.ofNat 39 else c))
  let lowered := pyLower normalized
  if SOFT_PHRASES.any (fun soft => strIn soft lowered) then none
  else if STRONG_ACTION_PHRASES.any (fun phrase => strIn phrase lowered) then
    some
      (match leadingIllRest normalized.data with
       | some rest => sender ++ " will" ++ String.mk rest
       | none =>
         match leadingIRest normalized.data with
         | some rest => sender ++ String.mk rest
         | none => normalized)
  else none

example :
    extract_action "I'll fix the login issue by 21st May" "<@U1>" =
      some "<@U1> will fix the login issue by 21st May" := by decide
example :
    extract_eta "13 Oct 2026" "I'll fix the login issue by 21st May" =
      some "21st May" := by decide
example : extract_eta "13 Oct 2026" "done by eod" = some "EOD (13 Oct 2026)" := by decide
example : extract_action "maybe restart it" "<@U1>" = none := by decide
example : extract_action "investigating" "<@U1>" = some "investigating" := by decide
example : extract_jira_id "see ABC-123 now" = some "ABC-123" := by decide
example : extract_jira_id "https://x.io/browse/XY-9 b" = some "XY-9" := by decide
example : extract_jira_id "no ticket" = none := by decide
example : extract_links "go https://a.io/x now" = ["https://a.io/x"] := by decide
example : extract_status "we are investigating" = some "Investigating" := by decide
example : extract_status "rca done" = some "Rca Done" := by decide
example : extract_abstract "login broken" = some "Auth/Login Issue" := by decide
example : extract_abstract "the ui is down" = some "WebUI Bug" := by decide
example : extract_abstract "hello" = none := by decide
example : extract_owner "i will handle this" "<@U7>" = some "<@U7>" := by decide
example : extract_owner "owner is <@U9>" "<@U7>" = some "<@U9>" := by decide
example : detect_owner_question "can you take this <@U2>?" = true := by decide
example : findMentions ("hi <@U2> and <@AB9>".data) = ["U2", "AB9"] := by decide

/-!
## Data model (`src/utils/action_items.py`, `src/incident_state.py`)

Action entries live in a Python list that may hold legacy plain strings,
dicts, or other junk; `RawEntry` is that tagged union. A dict entry's
fields may each be absent/None (`Option`). The `actions` key itself may be
absent, not a list, or a list; `next_action_id` may be absent/None or an
integer.
-/

structure RawItem where
  id : Option Int
  text : Option String
  owner : Option String
  due : Option String
  status : Option String
  created_at : Option String
  created_by : Option String
  done_at : Option String
  done_by : Option String
deriving DecidableEq, Repr

inductive RawEntry
  | str (s : String)
  | item (d : RawItem)
  | other
deriving DecidableEq, Repr

inductive ActionsField
  | missing
  | notList
  | list (entries : List RawEntry)
deriving DecidableEq, Repr

inductive NextIdField
  | absent
  | intVal (n : Int)
deriving DecidableEq, Repr

structure TimelineEvent where
  ts : String
  msg : String
deriving DecidableEq, Repr

/-- One channel's incident record (the dict built by `start_incident`).
A timeline entry is stored as its timestamp/message parts; the source
concatenates them as `f"{timestamp} – {message}"`. -/
structure IncidentRecord where
  severity : String
  status : String
  abstract : String
  owner : String
  eta : String
  jira_id : Option String
  actions : ActionsField
  next_action_id : NextIdField
  links : List String
  timeline : List TimelineEvent
  pending_owner_request : Option String
  just_started : Bool
deriving DecidableEq, Repr

/-!
## Action-item ledger (`src/utils/action_items.py`)
-/

/-- The dict built for a migrated legacy string action (`text` already
stripped by the caller, as in the source). -/
def mkMigrated (idv : Int) (strippedText : String) (now : String) : RawItem :=
  { id := some idv, text := some strippedText, owner := none, due := none,
    status := some "open", created_at := some now, created_by := none,
    done_at := none, done_by := none }

/-- The per-dict body of the normalisation loop: validate the id (taking a
fresh one when absent), clamp status to open/done, coerce+strip text,
default created_at. Returns `(item_id, normalised item, next_id)`. -/
def normItem (now : String) (next : Int) (d : RawItem) : Int × RawItem × Int :=
  let idNext : Int × Int :=
    match d.id with
    | some k => (k, next)
    | none => (next, next + 1)
  let status :=
    match d.status with
    | some st => if st = "open" ∨ st = "done" then st else "open"
    | none => "open"
  let createdAt :=
    match d.created_at with
    | some c => if c = "" then now else c
    | none => now
  (idNext.1,
   { id := some idNext.1,
     text := some (pyStrip (d.text.getD "")),
     owner := d.owner, due := d.due, status := some status,
     created_at := some createdAt, created_by := d.created_by,
     done_at := d.done_at, done_by := d.done_by },
   idNext.2)

/-- The legacy-list migration pass (`if actions and isinstance(actions[0], str)`):
strings become structured items with consecutive ids; anything that is not
a string is dropped by its `continue`. -/
def migrateAll (now : String) : List RawEntry → Int → List RawEntry × Int
  | [], next => ([], next)
  | .str s :: rest, next =>
    let tail := migrateAll now rest (next + 1)
    (.item (mkMigrated next (pyStrip s) now) :: tail.1, tail.2)
  | _ :: rest, next => migrateAll now rest next

/-- The main normalisation loop: strings are migrated on the fly, non-dict
non-string entries are skipped, dicts go through `normItem`; `maxId`
accumulates `max(max_id, item_id)`. Returns `(items, next_id, max_id)`. -/
def normLoop (now : String) : List RawEntry → Int → Int → List RawItem × Int × Int
  | [], next, maxId => ([], next, maxId)
  | .other :: rest, next, maxId => normLoop now rest next maxId
  | .str s :: rest, next, maxId =>
    let r := normItem now (next + 1) (mkMigrated next (pyStrip s) now)
    let res := normLoop now rest r.2.2 (max maxId r.1)
    (r.2.1 :: res.1, res.2)
  | .item d :: rest, next, maxId =>
    let r := normItem now next d
    let res := normLoop now rest r.2.2 (max maxId r.1)
    (r.2.1 :: res.1, res.2)

/-- `state.get("next_action_id", 1) or 1` (the early-return branches):
absent/None falls back to 1, the falsy integer 0 becomes 1, every other
integer — including negative ones — is kept as-is. -/
def defaultNextId : NextIdField → NextIdField
  | .absent => .intVal 1
  | .intVal n => if n = 0 then .intVal 1 else .intVal n

/-- `next_id = state.get("next_action_id"); if not isinstance(next_id, int)
or next_id < 1: next_id = 1`. -/
def validNextInt : NextIdField → Int
  | .absent => 1
  | .intVal n => if n < 1 then 1 else n

def headIsStr : List RawEntry → Bool
  | .str _ :: _ => true
  | _ => false

/-- The list branch of `normalize_actions`: optional legacy migration,
the main loop, and the final `max(max_id + 1, next_id, 1)` counter
repair. Returns the normalised items and the new counter. -/
def normalizeList (now : String) (acts : List RawEntry) (next0 : Int) :
    List RawItem × Int :=
  let migrated := if headIsStr acts then migrateAll now acts next0 else (acts, next0)
  let res := normLoop now migrated.1 migrated.2 0
  (res.1, max (res.2.2 + 1) (max res.2.1 1))

def normalize_actions (now : String) (s : IncidentRecord) : IncidentRecord :=
  match s.actions with
  | .missing =>
    { s with actions := .list [],
             next_action_id := defaultNextId s.next_action_id }
  | .notList =>
    { s with actions := .list [],
             next_action_id := defaultNextId s.next_action_id }
  | .list acts =>
    let r := normalizeList now acts (validNextInt s.next_action_id)
    { s with actions := .list (r.1.map RawEntry.item),
             next_action_id := .intVal r.2 }

/-- The entries of a record's actions list (normalised states always carry
a list). -/
def actionEntries (s : IncidentRecord) : List RawEntry :=
  match s.actions with
  | .list l => l
  | _ => []

/-- `split_actions`: normalise, then partition by status, preserving order.
After `normalize_actions` every entry is a dict, so projecting the items
is exact. -/
def split_actions (now : String) (s : IncidentRecord) :
    List RawItem × List RawItem × IncidentRecord :=
  let s1 := normalize_actions now s
  let items := (actionEntries s1).filterMap
    (fun e => match e with | .item d => some d | _ => none)
  (items.filter (fun d => !(d.status == some "done")),
   items.filter (fun d => d.status == some "done"), s1)

def infer_owner_from_text (text : String) : Option String :=
  if text = "" then none
  else
    match findMentions text.data with
    | m :: _ => some ("<@" ++ m ++ ">")
    | [] => none

/-- `int(state.get("next_action_id") or 1)`, read after `normalize_actions`
has run (normalisation always leaves an integer there, so the `int()`
coercion is the identity). -/
def currentNextId : NextIdField → Int
  | .absent => 1
  | .intVal n => if n = 0 then 1 else n

/-- `add_action_item`: normalise, validate the stripped text (a raised
`ValueError` is the `.error` result; the state mutations already performed
by normalisation are kept, as in the source), then append a fresh open
item. -/
def add_action_item (now : String) (s : IncidentRecord) (text : String)
    (created_by owner due : Option String) :
    Except String RawItem × IncidentRecord :=
  let s1 := normalize_actions now s
  let cleaned := pyStrip text
  if cleaned = "" then (.error "action text is empty", s1)
  else
    let item_id := currentNextId s1.next_action_id
    let item : RawItem :=
      { id := some item_id, text := some cleaned, owner := owner, due := due,
        status := some "open", created_at := some now,
        created_by := created_by, done_at := none, done_by := none }
    (.ok item,
     { s1 with actions := .list (actionEntries s1 ++ [.item item]),
               next_action_id := .intVal (item_id + 1) })

/-- `if text is not None and str(text).strip(): item["text"] = ...` -/
def apply_text_field (t : Option String) (d : RawItem) : RawItem :=
  match t with
  | some tx => if pyStrip tx ≠ "" then { d with text := some (pyStrip tx) } else d
  | none => d

/-- `if owner is not None: item["owner"] = owner` -/
def apply_owner_field (o : Option String) (d : RawItem) : RawItem :=
  match o with
  | some ov => { d with owner := some ov }
  | none => d

/-- `if due is not None: item["due"] = due` -/
def apply_due_field (du : Option String) (d : RawItem) : RawItem :=
  match du with
  | some dv => { d with due := some dv }
  | none => d

/-- `if status in {"open", "done"}: ...` — set the status and stamp or
clear `done_at`/`done_by` accordingly. -/
def apply_status_field (now : String) (st db : Option String) (d : RawItem) :
    RawItem :=
  match st with
  | some sv =>
    if sv = "open" ∨ sv = "done" then
      if sv = "done" then
        { d with status := some sv, done_at := some now, done_by := db }
      else
        { d with status := some sv, done_at := none, done_by := none }
    else d
  | none => d

/-- The field mutations applied to a located item by `update_action_item`,
in source order: text only when non-empty after strip, owner/due only when
provided, status only when a valid enum value. -/
def update_fields (now : String) (text owner due status done_by : Option String)
    (d : RawItem) : RawItem :=
  apply_status_field now status done_by
    (apply_due_field due (apply_owner_field owner (apply_text_field text d)))

/-- The linear scan of `update_action_item`: mutate the first entry whose
id matches and return it (after `normalize_actions` every entry is a
dict). -/
def updateFirst (now : String) (action_id : Int)
    (text owner due status done_by : Option String) :
    List RawEntry → Option RawItem × List RawEntry
  | [] => (none, [])
  | .item d :: rest =>
    if d.id == some action_id then
      let d1 := update_fields now text owner due status done_by d
      (some d1, .item d1 :: rest)
    else
      let res := updateFirst now action_id text owner due status done_by rest
      (res.1, .item d :: res.2)
  | e :: rest =>
    let res := updateFirst now action_id text owner due status done_by rest
    (res.1, e :: res.2)

def update_action_item (now : String) (s : IncidentRecord) (action_id : Int)
    (text owner due status done_by : Option String) :
    Option RawItem × IncidentRecord :=
  let s1 := normalize_actions now s
  let res := updateFirst now action_id text owner due status done_by (actionEntries s1)
  (res.1, { s1 with actions := .list res.2 })

/-!
## Incident state store (`src/incident_state.py`), restricted to one
channel's slot (`Option IncidentRecord`); operations on other channels
never touch this slot.
-/

def freshIncidentRecord : IncidentRecord :=
  { severity := "P1", status := "Investigating", abstract := "TBD",
    owner := "TBD", eta := "TBD", jira_id := none, actions := .list [],
    next_action_id := .intVal 1, links := [], timeline := [],
    pending_owner_request := none, just_started := true }

def add_timeline_event (now msg : String) :
    Option IncidentRecord → Option IncidentRecord
  | none => none
  | some r => some { r with timeline := r.timeline ++ [⟨now, msg⟩] }

def start_incident (now : String) :
    Option IncidentRecord → Bool × Option IncidentRecord
  | some r => (false, some r)
  | none =>
    (true, add_timeline_event now "Incident detected" (some freshIncidentRecord))

def detectedCount : Option IncidentRecord → Nat
  | none => 0
  | some r => r.timeline.countP (fun e => e.msg == "Incident detected")

/-!
## Message processing pipeline (`src/app.py`, `handle_message`)

The channel-visible effects of the handler: one channel's incident slot
plus that channel's `pending_confirmations` entry. Chat posting, pinning
and rendering are external I/O and carry no incident state.
-/

structure ChannelCtx where
  incident : Option IncidentRecord
  pending : Option String
deriving DecidableEq, Repr

/-- `[line.strip() for line in text.split("\n") if line.strip()]`. -/
def linesOf (text : String) : List String :=
  ((splitNl text).map pyStrip).filter (fun line => line ≠ "")

/-- The action-detection block of the line loop (de-dup among open items,
then `add_action_item` plus its timeline event). The `.error` branch of
`add_action_item` would be a raised `ValueError` in the source; it is
unreachable from the pipeline because a detected action never strips to
empty (the line itself is stripped and nonempty). -/
def action_block (now today sender line : String) (st : IncidentRecord)
    (action : String) : IncidentRecord × Bool :=
  let owner := infer_owner_from_text action
  let due := extract_eta today line
  let parts := split_actions now st
  if parts.1.any (fun a => a.text.getD "" == action) then (parts.2.2, false)
  else
    match add_action_item now parts.2.2 action sender owner due with
    | (.ok item, st2) =>
      ({ st2 with timeline :=
          st2.timeline ++ [⟨now, "Action added: #" ++ toString (item.id.getD 0)⟩] },
       true)
    | (.error _, st2) => (st2, false)

/-- One iteration of the STEP-2 line loop; returns the mutated state and
whether this line set `updated`. -/
def processLine (now today sender uid : String) (st0 : IncidentRecord)
    (line : String) : IncidentRecord × Bool :=
  Id.run do
    let mut st := st0
    let mut updated := false
    let l := pyLower line
    -- Abstract (falls through to the next checks)
    if st.abstract = "" ∨ st.abstract = "TBD" then
      match extract_abstract line with
      | some abstract =>
        if abstract ≠ "" then
          st := { st with
                  abstract := abstract,
                  timeline := st.timeline ++ [⟨now, "Abstract set to " ++ abstract⟩] }
          updated := true
      | none => pure ()
    -- Owner QUESTION detection (continue)
    if detect_owner_question line then
      match findMentions line.data with
      | m :: _ => st := { st with pending_owner_request := some m }
      | [] => pure ()
      return (st, updated)
    -- Owner CONFIRMATION detection
    match st.pending_owner_request with
    | some p =>
      if p ≠ "" ∧ (l = "yes" ∨ l = "ok" ∨ l = "okay" ∨ l = "sure" ∨ l = "i will") ∧
          uid = p then
        st := { st with
                owner := sender, pending_owner_request := none,
                timeline := st.timeline ++ [⟨now, "Owner assigned to " ++ sender⟩] }
        updated := true
        return (st, updated)
    | none => pure ()
    -- Status detection
    match extract_status line with
    | some status =>
      if status ≠ "" ∧ status ≠ st.status then
        st := { st with
                status := status,
                timeline := st.timeline ++ [⟨now, "Status updated to " ++ status⟩] }
        updated := true
        return (st, updated)
    | none => pure ()
    -- Jira detection
    match extract_jira_id line with
    | some jira =>
      if jira ≠ "" ∧ some jira ≠ st.jira_id then
        st := { st with
                jira_id := some jira,
                timeline := st.timeline ++ [⟨now, "Jira linked: " ++ jira⟩] }
        updated := true
        return (st, updated)
    | none => pure ()
    -- Link / reference detection (additive, no early exit)
    for link in extract_links line do
      if link ∉ st.links then
        st := { st with
                links := st.links ++ [link],
                timeline := st.timeline ++ [⟨now, "Reference added: " ++ link⟩] }
        updated := true
    -- Explicit / implicit owner detection
    match extract_owner line sender with
    | some owner =>
      if owner ≠ "" ∧ owner ≠ st.owner then
        st := { st with
                owner := owner,
                timeline := st.timeline ++ [⟨now, "Owner assigned to " ++ owner⟩] }
        updated := true
        return (st, updated)
    | none => pure ()
    -- ETA detection
    match extract_eta today line with
    | some eta =>
      if eta ≠ "" ∧ eta ≠ st.eta then
        st := { st with
                eta := eta,
                timeline := st.timeline ++ [⟨now, "ETA set to " ++ eta⟩] }
        updated := true
        return (st, updated)
    | none => pure ()
    -- Action detection
    match extract_action line sender with
    | some action =>
      if action ≠ "" then
        let res := action_block now today sender line st action
        st := res.1
        if res.2 then
          updated := true
        return (st, updated)
    | none => pure ()
    return (st, updated)

/-- The STEP-2 loop over all lines, accumulating the `updated` flag. -/
def processLines (now today sender uid : String) (st0 : IncidentRecord)
    (lines : List String) : IncidentRecord × Bool :=
  lines.foldl
    (fun acc line =>
      let r := processLine now today sender uid acc.1 line
      (r.1, acc.2 || r.2))
    (st0, false)

inductive Step1Out
  | halted (ctx : ChannelCtx)
  | proceed (started : Bool) (ctx : ChannelCtx)
deriving DecidableEq, Repr

/-- The STEP-1 detection loop: HIGH starts the incident and breaks;
MEDIUM possibly records a pending confirmation (and posts the external
prompt) and then returns from the whole handler — the `return` sits
outside the inactivity guard. -/
def step1 (now : String) (ctx : ChannelCtx) : List String → Step1Out
  | [] => .proceed false ctx
  | line :: rest =>
    if classify_incident_intent line = "HIGH" then
      let r := start_incident now ctx.incident
      .proceed r.1 { ctx with incident := r.2 }
    else if classify_incident_intent line = "MEDIUM" then
      if ctx.incident = none ∧ ctx.pending = none then
        .halted { ctx with pending := some line }
      else .halted ctx
    else step1 now ctx rest

/-- `handle_message`: guard, STEP 1, activity check, STEP 2, and the
final `just_started` clearing (the summary render/post is external). -/
def handle_message (now today : String) (ctx : ChannelCtx) (text : String)
    (user : Option String) : ChannelCtx :=
  if text = "" ∨ user = none then ctx
  else
    let uid := user.getD ""
    let sender := "<@" ++ uid ++ ">"
    let lines := linesOf text
    match step1 now ctx lines with
    | .halted ctx1 => ctx1
    | .proceed started ctx1 =>
      match ctx1.incident with
      | none => ctx1
      | some st0 =>
        let st1 := normalize_actions now st0
        let res := processLines now today sender uid st1 lines
        let st2 :=
          if res.2 || started then { res.1 with just_started := false } else res.1
        { ctx1 with incident := some st2 }

/-- Scanning the lines the way STEP 1 does: is the first non-LOW line
MEDIUM (that is, does the handler return before STEP 2)? -/
def firstNonLowIsMedium : List String → Bool
  | [] => false
  | line :: rest =>
    if classify_incident_intent line = "HIGH" then false
    else if classify_incident_intent line = "MEDIUM" then true
    else firstNonLowIsMedium rest

example :
    handle_message "t" "d" ⟨some freshIncidentRecord, none⟩
      "there is a regression in checkout" (some "U1") =
    ⟨some freshIncidentRecord, none⟩ := by decide

example :
    (processLine "t" "d" "<@U1>" "U1" (normalize_actions "t" freshIncidentRecord)
        "investigating").1.actions =
      .list [.item (RawItem.mk (some 1) (some "investigating") none none
        (some "open") (some "t") (some "<@U1>") none none)] := by
  decide

/-!
## Claim theorems
-/

/-- C3: starting an incident on a channel with no record returns `true`
and creates the record; a second `start` returns `false` and leaves the
record unchanged (a no-op), and the timeline then holds exactly one
"Incident detected" event. -/
theorem start_incident_twice (now1 now2 : String) :
    (start_incident now1 none).1 = true ∧
    (start_incident now2 (start_incident now1 none).2).1 = false ∧
    (start_incident now2 (start_incident now1 none).2).2 =
      (start_incident now1 none).2 ∧
    detectedCount (start_incident now2 (start_incident now1 none).2).2 = 1 :=
  ⟨rfl, rfl, rfl, rfl⟩

/-- C9: the classifier is a pure function of the line whose result is
characterised exactly by the two keyword scores (counts over the
duplicate-free vocabularies): HIGH iff both scores are ≥ 1, MEDIUM iff
the intent score is ≥ 1 and the urgency score is 0, LOW iff the intent
score is 0; and the line "there is a regression in checkout" classifies
MEDIUM. -/
theorem classify_incident_intent_spec :
    INCIDENT_KEYWORDS.Nodup ∧ URGENCY_KEYWORDS.Nodup ∧
    (∀ line : String,
      (classify_incident_intent line = "HIGH" ↔
        1 ≤ intentScoreOf line ∧ 1 ≤ urgencyScoreOf line) ∧
      (classify_incident_intent line = "MEDIUM" ↔
        1 ≤ intentScoreOf line ∧ urgencyScoreOf line = 0) ∧
      (classify_incident_intent line = "LOW" ↔ intentScoreOf line = 0)) ∧
    classify_incident_intent "there is a regression in checkout" = "MEDIUM" := by
  refine ⟨by decide, by decide, ?_, by decide⟩
  intro line
  unfold classify_incident_intent
  by_cases hA : 1 ≤ intentScoreOf line ∧ 1 ≤ urgencyScoreOf line
  · rw [if_pos hA]
    refine ⟨⟨fun _ => hA, fun _ => rfl⟩, ⟨fun h => absurd h (by decide), fun h => ?_⟩,
      ⟨fun h => absurd h (by decide), fun h => ?_⟩⟩
    · exfalso; omega
    · exfalso; omega
  · by_cases hB : 1 ≤ intentScoreOf line ∧ urgencyScoreOf line = 0
    · rw [if_neg hA, if_pos hB]
      refine ⟨⟨fun h => absurd h (by decide), fun h => ?_⟩, ⟨fun _ => hB, fun _ => rfl⟩,
        ⟨fun h => absurd h (by decide), fun h => ?_⟩⟩
      · exfalso; omega
      · exfalso; omega
    · rw [if_neg hA, if_neg hB]
      refine ⟨⟨fun h => absurd h (by decide), fun h => absurd h hA⟩,
        ⟨fun h => absurd h (by decide), fun h => absurd h hB⟩,
        ⟨fun _ => ?_, fun _ => rfl⟩⟩
      by_contra hne
      have h1 : 1 ≤ intentScoreOf line := by omega
      by_cases hu0 : urgencyScoreOf line = 0
      · exact hB ⟨h1, hu0⟩
      · exact hA ⟨h1, by omega⟩

/-- A single open action item as stored by the ledger. -/
def itemOpen1 : RawItem :=
  RawItem.mk (some 1) (some "fix db") none none (some "open") (some "t0")
    none none none

/-- A channel record holding exactly that open item. -/
def stOneOpen : IncidentRecord :=
  { freshIncidentRecord with actions := .list [.item itemOpen1] }

/-- C2 counterexample: an `update` that transitions the open item to done
with an absent `done_by` stamps `done_at` with the timestamp but leaves
`done_by` null — they are not "set (non-null) together" for a none
`doneBy`. -/
theorem update_done_absent_doneBy_cex :
    ((update_action_item "t2" stOneOpen 1 none none none (some "done") none).1.map
        RawItem.done_at = some (some "t2")) ∧
    ((update_action_item "t2" stOneOpen 1 none none none (some "done") none).1.map
        RawItem.done_by = some none) := by
  decide

theorem updateFirst_some (now : String) (aid : Int)
    (text owner due status db : Option String) :
    ∀ l it, (updateFirst now aid text owner due status db l).1 = some it →
      ∃ d, it = update_fields now text owner due status db d := by
  intro l
  induction l with
  | nil => intro it h; simp [updateFirst] at h
  | cons e rest ih =>
      intro it h
      cases e with
      | str s => simp only [updateFirst] at h; exact ih it h
      | other => simp only [updateFirst] at h; exact ih it h
      | item d =>
          simp only [updateFirst] at h
          by_cases hid : d.id == some aid
          · rw [if_pos hid] at h
            simp at h
            exact ⟨d, h.symm⟩
          · rw [if_neg hid] at h
            exact ih it h

theorem update_fields_done_eq (now : String) (t o du db : Option String)
    (d : RawItem) :
    (update_fields now t o du (some "done") db d).done_at = some now ∧
    (update_fields now t o du (some "done") db d).done_by = db := by
  simp [update_fields, apply_status_field]

theorem update_fields_open_eq (now : String) (t o du db : Option String)
    (d : RawItem) :
    (update_fields now t o du (some "open") db d).done_at = none ∧
    (update_fields now t o du (some "open") db d).done_by = none := by
  simp [update_fields, apply_status_field]

/-- C2 (amended): a transition to done stamps `done_at` with the current
timestamp and sets `done_by` to the supplied argument (null when absent,
so both are non-null together only when a `doneBy` is provided); a
transition back to open clears both; items created by `add` start with
both null. -/
theorem update_done_open_stamps (now : String) (s : IncidentRecord) (aid : Int)
    (text owner due db : Option String) (it : RawItem) :
    ((update_action_item now s aid text owner due (some "done") db).1 = some it →
      it.done_at = some now ∧ it.done_by = db) ∧
    ((update_action_item now s aid text owner due (some "open") db).1 = some it →
      it.done_at = none ∧ it.done_by = none) ∧
    (∀ t2 cb ow d2, (add_action_item now s t2 cb ow d2).1 = .ok it →
      it.done_at = none ∧ it.done_by = none) := by
  refine ⟨fun h => ?_, fun h => ?_, fun t2 cb ow d2 h => ?_⟩
  · unfold update_action_item at h
    simp only [] at h
    obtain ⟨d, hd⟩ := updateFirst_some now aid text owner due (some "done") db _ it h
    rw [hd]
    exact update_fields_done_eq now text owner due db d
  · unfold update_action_item at h
    simp only [] at h
    obtain ⟨d, hd⟩ := updateFirst_some now aid text owner due (some "open") db _ it h
    rw [hd]
    exact update_fields_open_eq now text owner due db d
  · unfold add_action_item at h
    by_cases he : pyStrip t2 = ""
    · simp [he] at h
    · simp [he] at h
      rw [← h]
      exact ⟨rfl, rfl⟩

theorem update_done_open_stamps_witness :
    ((update_action_item "t2" stOneOpen 1 none none none (some "done")
        (some "<@U9>")).1.map RawItem.done_at = some (some "t2")) ∧
    ((update_action_item "t2" stOneOpen 1 none none none (some "done")
        (some "<@U9>")).1.map RawItem.done_by = some (some "<@U9>")) := by
  have h := (update_done_open_stamps "t2" stOneOpen 1 none none none
    (some "<@U9>")
    (RawItem.mk (some 1) (some "fix db") none none (some "done") (some "t0")
      none (some "t2") (some "<@U9>"))).1 (by decide)
  decide

/-- C5: `add` fails with the validation error exactly when the text strips
to empty; otherwise it returns the appended item, which carries the
current next id, status open and the stripped text. -/
theorem add_action_item_spec (now : String) (s : IncidentRecord) (text : String)
    (cb ow du : Option String) :
    ((∃ e, (add_action_item now s text cb ow du).1 = .error e) ↔
      pyStrip text = "") ∧
    (∀ it, (add_action_item now s text cb ow du).1 = .ok it →
      it.id = some (currentNextId (normalize_actions now s).next_action_id) ∧
      it.status = some "open" ∧ it.text = some (pyStrip text) ∧
      (add_action_item now s text cb ow du).2.actions =
        .list (actionEntries (normalize_actions now s) ++ [.item it])) := by
  unfold add_action_item
  by_cases he : pyStrip text = ""
  · simp [he]
  · simp [he]

theorem add_action_item_spec_witness :
    (add_action_item "t" freshIncidentRecord "  fix it  " (some "<@U1>")
        none none).1 =
      .ok (RawItem.mk (some 1) (some "fix it") none none (some "open")
        (some "t") (some "<@U1>") none none) ∧
    (RawItem.mk (some 1) (some "fix it") none none (some "open") (some "t")
        (some "<@U1>") none none).text = some (pyStrip "  fix it  ") :=
  ⟨rfl,
   ((add_action_item_spec "t" freshIncidentRecord "  fix it  " (some "<@U1>")
      none none).2
     (RawItem.mk (some 1) (some "fix it") none none (some "open") (some "t")
       (some "<@U1>") none none) rfl).2.2.1⟩

/-- The first entry whose id matches, as scanned by `update_action_item`. -/
def findFirstItem (aid : Int) : List RawEntry → Option RawItem
  | [] => none
  | .item d :: rest => if d.id == some aid then some d else findFirstItem aid rest
  | _ :: rest => findFirstItem aid rest

theorem updateFirst_eq_find (now : String) (aid : Int)
    (t o du st db : Option String) :
    ∀ l, (updateFirst now aid t o du st db l).1 =
      (findFirstItem aid l).map (update_fields now t o du st db) := by
  intro l
  induction l with
  | nil => simp [updateFirst, findFirstItem]
  | cons e rest ih =>
      cases e with
      | str s => simpa [updateFirst, findFirstItem] using ih
      | other => simpa [updateFirst, findFirstItem] using ih
      | item d =>
          by_cases hid : d.id == some aid
          · simp [updateFirst, findFirstItem, hid]
          · simpa [updateFirst, findFirstItem, hid] using ih

/-- C6: `update` on an id carried by no item returns none (the model is a
total function, so no exception is possible); on a present id it returns
the first matching item with exactly the provided fields applied —
absent owner/due/status leave the stored fields unchanged, text replaces
the stored text only when it is non-empty after stripping, and the id is
never touched. -/
theorem apply_status_field_keep (now : String) (st db : Option String)
    (d : RawItem) :
    (apply_status_field now st db d).id = d.id ∧
    (apply_status_field now st db d).text = d.text ∧
    (apply_status_field now st db d).owner = d.owner ∧
    (apply_status_field now st db d).due = d.due := by
  unfold apply_status_field
  cases st with
  | none => exact ⟨rfl, rfl, rfl, rfl⟩
  | some sv =>
      dsimp only
      split_ifs <;> exact ⟨rfl, rfl, rfl, rfl⟩

theorem apply_due_field_keep (du : Option String) (d : RawItem) :
    (apply_due_field du d).id = d.id ∧
    (apply_due_field du d).text = d.text ∧
    (apply_due_field du d).owner = d.owner ∧
    (apply_due_field du d).status = d.status ∧
    (apply_due_field du d).done_at = d.done_at ∧
    (apply_due_field du d).done_by = d.done_by := by
  cases du <;> exact ⟨rfl, rfl, rfl, rfl, rfl, rfl⟩

theorem apply_owner_field_keep (o : Option String) (d : RawItem) :
    (apply_owner_field o d).id = d.id ∧
    (apply_owner_field o d).text = d.text ∧
    (apply_owner_field o d).due = d.due ∧
    (apply_owner_field o d).status = d.status ∧
    (apply_owner_field o d).done_at = d.done_at ∧
    (apply_owner_field o d).done_by = d.done_by := by
  cases o <;> exact ⟨rfl, rfl, rfl, rfl, rfl, rfl⟩

theorem apply_text_field_keep (t : Option String) (d : RawItem) :
    (apply_text_field t d).id = d.id ∧
    (apply_text_field t d).owner = d.owner ∧
    (apply_text_field t d).due = d.due ∧
    (apply_text_field t d).status = d.status ∧
    (apply_text_field t d).done_at = d.done_at ∧
    (apply_text_field t d).done_by = d.done_by := by
  unfold apply_text_field
  cases t with
  | none => exact ⟨rfl, rfl, rfl, rfl, rfl, rfl⟩
  | some tx =>
      dsimp only
      split_ifs <;> exact ⟨rfl, rfl, rfl, rfl, rfl, rfl⟩

theorem update_fields_text_eq (now : String) (t o du st db : Option String)
    (d : RawItem) :
    (update_fields now t o du st db d).text = (apply_text_field t d).text := by
  unfold update_fields
  rw [(apply_status_field_keep now st db _).2.1,
      (apply_due_field_keep du _).2.1, (apply_owner_field_keep o _).2.1]

theorem update_fields_owner_eq (now : String) (t o du st db : Option String)
    (d : RawItem) :
    (update_fields now t o du st db d).owner =
      (apply_owner_field o (apply_text_field t d)).owner := by
  unfold update_fields
  rw [(apply_status_field_keep now st db _).2.2.1,
      (apply_due_field_keep du _).2.2.1]

theorem update_fields_due_eq (now : String) (t o du st db : Option String)
    (d : RawItem) :
    (update_fields now t o du st db d).due =
      (apply_due_field du (apply_owner_field o (apply_text_field t d))).due := by
  unfold update_fields
  rw [(apply_status_field_keep now st db _).2.2.2]

theorem update_fields_id_eq (now : String) (t o du st db : Option String)
    (d : RawItem) : (update_fields now t o du st db d).id = d.id := by
  unfold update_fields
  rw [(apply_status_field_keep now st db _).1, (apply_due_field_keep du _).1,
      (apply_owner_field_keep o _).1, (apply_text_field_keep t _).1]

/-- C6: `update` on an id carried by no item returns none (the model is a
total function, so no exception is possible); on a present id it returns
the first matching item with exactly the provided fields applied —
absent owner/due/status leave the stored fields unchanged, text replaces
the stored text only when it is non-empty after stripping, and the id is
never touched. -/
theorem update_action_item_spec (now : String) (s : IncidentRecord) (aid : Int)
    (t o du st db : Option String) :
    (findFirstItem aid (actionEntries (normalize_actions now s)) = none →
      (update_action_item now s aid t o du st db).1 = none) ∧
    (∀ d, findFirstItem aid (actionEntries (normalize_actions now s)) = some d →
      (update_action_item now s aid t o du st db).1 =
        some (update_fields now t o du st db d)) ∧
    (∀ d : RawItem,
      (t = none → (update_fields now t o du st db d).text = d.text) ∧
      (∀ tx, t = some tx → pyStrip tx = "" →
        (update_fields now t o du st db d).text = d.text) ∧
      (∀ tx, t = some tx → pyStrip tx ≠ "" →
        (update_fields now t o du st db d).text = some (pyStrip tx)) ∧
      (o = none → (update_fields now t o du st db d).owner = d.owner) ∧
      (∀ ov, o = some ov → (update_fields now t o du st db d).owner = some ov) ∧
      (du = none → (update_fields now t o du st db d).due = d.due) ∧
      (∀ dv, du = some dv → (update_fields now t o du st db d).due = some dv) ∧
      (st = none → (update_fields now t o du st db d).status = d.status ∧
        (update_fields now t o du st db d).done_at = d.done_at ∧
        (update_fields now t o du st db d).done_by = d.done_by) ∧
      (update_fields now t o du st db d).id = d.id) := by
  refine ⟨fun h => ?_, fun d h => ?_, fun d => ?_⟩
  · unfold update_action_item
    simp [updateFirst_eq_find, h]
  · unfold update_action_item
    simp [updateFirst_eq_find, h]
  · refine ⟨?_, ?_, ?_, ?_, ?_, ?_, ?_, ?_, update_fields_id_eq now t o du st db d⟩
    · rintro rfl
      rw [update_fields_text_eq]
      rfl
    · rintro tx rfl hstr
      rw [update_fields_text_eq]
      simp [apply_text_field, hstr]
    · rintro tx rfl hstr
      rw [update_fields_text_eq]
      simp [apply_text_field, hstr]
    · rintro rfl
      rw [update_fields_owner_eq]
      exact (apply_text_field_keep t d).2.1
    · rintro ov rfl
      rw [update_fields_owner_eq]
      rfl
    · rintro rfl
      rw [update_fields_due_eq]
      dsimp only [apply_due_field]
      rw [(apply_owner_field_keep o _).2.2.1, (apply_text_field_keep t d).2.2.1]
    · rintro dv rfl
      rw [update_fields_due_eq]
      rfl
    · rintro rfl
      unfold update_fields apply_status_field
      refine ⟨?_, ?_, ?_⟩
      · rw [(apply_due_field_keep du _).2.2.2.1,
            (apply_owner_field_keep o _).2.2.2.1,
            (apply_text_field_keep t d).2.2.2.1]
      · rw [(apply_due_field_keep du _).2.2.2.2.1,
            (apply_owner_field_keep o _).2.2.2.2.1,
            (apply_text_field_keep t d).2.2.2.2.1]
      · rw [(apply_due_field_keep du _).2.2.2.2.2,
            (apply_owner_field_keep o _).2.2.2.2.2,
            (apply_text_field_keep t d).2.2.2.2.2]

theorem update_action_item_spec_witness :
    (update_action_item "t" stOneOpen 99 none none none none none).1 = none ∧
    (update_action_item "t" stOneOpen 1 (some " new ") none none none none).1 =
      some (update_fields "t" (some " new ") none none none none itemOpen1) :=
  ⟨(update_action_item_spec "t" stOneOpen 99 none none none none none).1
    (by decide),
   (update_action_item_spec "t" stOneOpen 1 (some " new ") none none none
      none).2.1 itemOpen1 (by decide)⟩

/-- A legacy state: `actions` is a list of plain strings and the
`next_action_id` key is absent. -/
def stLegacy : IncidentRecord :=
  { freshIncidentRecord with actions := .list [.str " restart server "],
                             next_action_id := .absent }

/-- C10: `add` with text that strips to empty raises the validation error
*and* still mutates the state, because normalisation (legacy migration and
counter repair) runs before the empty-text check: the state after the
failed call is the normalised state, which differs from the input. -/
theorem add_empty_text_not_atomic (now : String) :
    (add_action_item now stLegacy "   " none none none).1 =
      .error "action text is empty" ∧
    (add_action_item now stLegacy "   " none none none).2 ≠ stLegacy ∧
    (add_action_item now stLegacy "   " none none none).2 =
      normalize_actions now stLegacy := by
  refine ⟨rfl, fun h => ?_, rfl⟩
  have h2 := congrArg IncidentRecord.actions h
  simp [add_action_item, normalize_actions, normalizeList, stLegacy,
    freshIncidentRecord, migrateAll, normLoop, normItem, mkMigrated, headIsStr,
    validNextInt, show pyStrip "   " = "" from by decide] at h2

/-- A channel state whose `actions` key is missing and whose stored
`next_action_id` is an invalid (negative, hence truthy) integer. -/
def stBadNext : IncidentRecord :=
  { freshIncidentRecord with actions := .missing,
                             next_action_id := .intVal (-5) }

/-- C4 counterexample: on a state with a missing `actions` key and a
stored negative `next_action_id`, the first `normalize` keeps the invalid
truthy counter (`x or 1` only repairs falsy values) while the second —
now seeing a list — repairs it to 1, so applying `normalize` twice does
not equal applying it once. -/
theorem normalize_actions_not_idempotent_cex :
    normalize_actions "t" (normalize_actions "t" stBadNext) ≠
      normalize_actions "t" stBadNext := by
  decide

theorem dropWhile_head_false (p : Char → Bool) :
    ∀ (l : List Char) a t, l.dropWhile p = a :: t → p a = false := by
  intro l
  induction l with
  | nil => intro a t h; simp [List.dropWhile] at h
  | cons b bs ih =>
      intro a t h
      rw [List.dropWhile_cons] at h
      by_cases hb : p b
      · rw [if_pos hb] at h; exact ih a t h
      · rw [if_neg hb] at h; cases h; simpa using hb

theorem dropWhile_dropWhile (p : Char → Bool) (l : List Char) :
    (l.dropWhile p).dropWhile p = l.dropWhile p := by
  cases hd : l.dropWhile p with
  | nil => rfl
  | cons a t =>
      rw [List.dropWhile_cons, dropWhile_head_false p l a t hd]
      simp

theorem stripChars_idem (l : List Char) :
    stripChars (stripChars l) = stripChars l := by
  unfold stripChars
  set y := l.dropWhile isPySpace with hy
  set A := y.reverse.dropWhile isPySpace with hA
  have claim1 : A.reverse.dropWhile isPySpace = A.reverse := by
    cases hrev : A.reverse with
    | nil => rfl
    | cons a t =>
        have hsuff : A <:+ y.reverse := hA ▸ List.dropWhile_suffix _
        obtain ⟨u, hu⟩ := hsuff
        have hyrev : y = A.reverse ++ u.reverse := by
          have h := congrArg List.reverse hu
          simpa [List.reverse_append] using h.symm
        rw [hrev] at hyrev
        have hhead : l.dropWhile isPySpace = a :: (t ++ u.reverse) := by
          rw [← hy]; simpa using hyrev
        have ha : isPySpace a = false :=
          dropWhile_head_false isPySpace l a (t ++ u.reverse) hhead
        rw [List.dropWhile_cons, ha]
        simp
  rw [claim1, List.reverse_reverse, hA, dropWhile_dropWhile]

theorem pyStrip_idem (t : String) : pyStrip (pyStrip t) = pyStrip t := by
  unfold pyStrip
  exact congrArg String.mk (stripChars_idem t.data)

/-- The shape of every item produced by the normalisation loop: an integer
id, a valid status, stripped text, and a nonempty created_at. A second
pass maps such items to themselves. -/
def NormalItem (d : RawItem) : Prop :=
  (∃ k, d.id = some k) ∧
  (d.status = some "open" ∨ d.status = some "done") ∧
  (∃ t, d.text = some (pyStrip t)) ∧
  (∃ c, c ≠ "" ∧ d.created_at = some c)

theorem normItem_id (now : String) (n : Int) (d : RawItem) :
    (normItem now n d).2.1.id = some (normItem now n d).1 := rfl

theorem normItem_output_normal (now : String) (hnow : now ≠ "") (next : Int)
    (d : RawItem) : NormalItem (normItem now next d).2.1 := by
  unfold normItem NormalItem
  refine ⟨⟨_, rfl⟩, ?_, ⟨_, rfl⟩, ?_⟩
  · dsimp only
    cases d.status with
    | none => simp
    | some st =>
        dsimp only
        by_cases h : st = "open" ∨ st = "done"
        · rw [if_pos h]
          rcases h with h | h <;> simp [h]
        · rw [if_neg h]; simp
  · dsimp only
    cases d.created_at with
    | none => exact ⟨now, hnow, rfl⟩
    | some c =>
        dsimp only
        by_cases hc : c = ""
        · exact ⟨now, hnow, by rw [if_pos hc]⟩
        · exact ⟨c, hc, by rw [if_neg hc]⟩

theorem normItem_of_normal (now2 : String) (n : Int) (d : RawItem)
    (hd : NormalItem d) : ∃ k, d.id = some k ∧ normItem now2 n d = (k, d, n) := by
  obtain ⟨id0, tx0, ow0, du0, st0, ca0, cb0, da0, db0⟩ := d
  obtain ⟨⟨k, hk⟩, hst, ⟨t, ht⟩, ⟨c, hc, hca⟩⟩ := hd
  dsimp only at hk ht hca hst
  subst hk; subst ht; subst hca
  refine ⟨k, rfl, ?_⟩
  unfold normItem
  rcases hst with h | h <;> subst h <;> simp [pyStrip_idem, hc]

theorem normLoop_all_normal (now : String) (hnow : now ≠ "") :
    ∀ (l : List RawEntry) (next maxId : Int) (d : RawItem),
      d ∈ (normLoop now l next maxId).1 → NormalItem d := by
  intro l
  induction l with
  | nil => intro next maxId d hd; simp [normLoop] at hd
  | cons e rest ih =>
      intro next maxId d hd
      cases e with
      | other => exact ih _ _ d (by simpa [normLoop] using hd)
      | str s =>
          simp only [normLoop, List.mem_cons] at hd
          rcases hd with rfl | hd
          · exact normItem_output_normal now hnow _ _
          · exact ih _ _ d hd
      | item d0 =>
          simp only [normLoop, List.mem_cons] at hd
          rcases hd with rfl | hd
          · exact normItem_output_normal now hnow _ _
          · exact ih _ _ d hd

theorem normLoop_max_fold (now : String) :
    ∀ (l : List RawEntry) (next maxId : Int),
      (normLoop now l next maxId).2.2 =
        List.foldl (fun a d => max a (d.id.getD 0)) maxId
          (normLoop now l next maxId).1 := by
  intro l
  induction l with
  | nil => intro next maxId; simp [normLoop]
  | cons e rest ih =>
      intro next maxId
      cases e with
      | other => simpa [normLoop] using ih next maxId
      | str s =>
          simp only [normLoop, List.foldl_cons]
          rw [ih, normItem_id]
          simp
      | item d0 =>
          simp only [normLoop, List.foldl_cons]
          rw [ih, normItem_id]
          simp

theorem normLoop_of_normal (now2 : String) :
    ∀ (items : List RawItem) (next maxId : Int),
      (∀ d ∈ items, NormalItem d) →
      normLoop now2 (items.map RawEntry.item) next maxId =
        (items, next,
          List.foldl (fun a d => max a (d.id.getD 0)) maxId items) := by
  intro items
  induction items with
  | nil => intro next maxId _; simp [normLoop]
  | cons d rest ih =>
      intro next maxId h
      obtain ⟨k, hk, hni⟩ := normItem_of_normal now2 next d (h d (by simp))
      simp only [List.map_cons, normLoop, hni]
      rw [ih next (max maxId k) (fun x hx => h x (List.mem_cons_of_mem d hx))]
      simp [List.foldl_cons, hk]

theorem headIsStr_map_item (items : List RawItem) :
    headIsStr (items.map RawEntry.item) = false := by
  cases items <;> rfl

theorem normalizeList_normal (now : String) (hnow : now ≠ "")
    (acts : List RawEntry) (next0 : Int) :
    ∀ d ∈ (normalizeList now acts next0).1, NormalItem d := by
  intro d hd
  unfold normalizeList at hd
  exact normLoop_all_normal now hnow _ _ _ d hd

theorem normalizeList_bound (now : String) (acts : List RawEntry)
    (next0 : Int) :
    1 ≤ (normalizeList now acts next0).2 ∧
    List.foldl (fun a d => max a (d.id.getD 0)) 0
        (normalizeList now acts next0).1 + 1 ≤
      (normalizeList now acts next0).2 := by
  unfold normalizeList
  dsimp only
  rw [← normLoop_max_fold]
  omega

theorem normalizeList_of_normal (now2 : String) (items : List RawItem)
    (N : Int) (hnorm : ∀ d ∈ items, NormalItem d) (hN1 : 1 ≤ N)
    (hbound : List.foldl (fun a d => max a (d.id.getD 0)) 0 items + 1 ≤ N) :
    normalizeList now2 (items.map RawEntry.item) N = (items, N) := by
  unfold normalizeList
  simp only [headIsStr_map_item, if_neg Bool.false_ne_true]
  rw [normLoop_of_normal now2 items N 0 hnorm]
  dsimp only
  rw [Prod.mk.injEq]
  exact ⟨rfl, by omega⟩

theorem normalize_actions_on_list (now : String) (s : IncidentRecord)
    (l : List RawEntry) (hl : s.actions = .list l) :
    normalize_actions now s =
      { s with
        actions := .list
          ((normalizeList now l (validNextInt s.next_action_id)).1.map
            RawEntry.item),
        next_action_id :=
          .intVal (normalizeList now l (validNextInt s.next_action_id)).2 } := by
  obtain ⟨sev, stt, abs0, own, eta0, jid, acts, nid, lks, tl, por, js⟩ := s
  dsimp only at hl
  subst hl
  rfl

/-- C4 (amended): `normalize` is idempotent on every state whose actions
field is a list — covering legacy all-string lists, mixed lists, and
missing or invalid `nextActionId` — given a nonempty timestamp (the
strftime format never yields ""). The second application reassigns no id
and migrates nothing (it returns the state unchanged). The idempotence
fails only for the early-return branches (missing / non-list actions)
with an invalid truthy stored counter, per the counterexample. -/
theorem normalize_actions_idem (now now2 : String) (s : IncidentRecord)
    (l : List RawEntry) (hl : s.actions = .list l) (hnow : now ≠ "") :
    normalize_actions now2 (normalize_actions now s) =
      normalize_actions now s := by
  have h1 := normalize_actions_on_list now s l hl
  set r := normalizeList now l (validNextInt s.next_action_id) with hr
  have h2 : (normalize_actions now s).actions = .list (r.1.map RawEntry.item) := by
    rw [h1]
  have h3 := normalize_actions_on_list now2 (normalize_actions now s)
    (r.1.map RawEntry.item) h2
  have h4 : (normalize_actions now s).next_action_id = .intVal r.2 := by
    rw [h1]
  have hb := normalizeList_bound now l (validNextInt s.next_action_id)
  rw [← hr] at hb
  have hn := normalizeList_normal now hnow l (validNextInt s.next_action_id)
  rw [← hr] at hn
  have h5 : validNextInt (normalize_actions now s).next_action_id = r.2 := by
    rw [h4]
    unfold validNextInt
    dsimp only
    rw [if_neg (by omega : ¬ r.2 < 1)]
  rw [h3, h5, normalizeList_of_normal now2 r.1 r.2 hn hb.1 hb.2, h1]

theorem normalize_actions_idem_witness :
    normalize_actions "u" (normalize_actions "t" stLegacy) =
      normalize_actions "t" stLegacy :=
  normalize_actions_idem "t" "u" stLegacy [.str " restart server "] rfl
    (by decide)

/-!
## Ledger operation sequences (C7)
-/

inductive LedgerOp
  | normalizeOp (now : String)
  | addOp (now : String) (text : String) (created_by owner due : Option String)
  | updateOp (now : String) (action_id : Int)
      (text owner due status done_by : Option String)

/-- The state effect of one ledger call (for `add` this is the state after
the call even when it raises, since normalisation has already mutated
it). -/
def applyOp (s : IncidentRecord) : LedgerOp → IncidentRecord
  | .normalizeOp now => normalize_actions now s
  | .addOp now text cb ow du => (add_action_item now s text cb ow du).2
  | .updateOp now aid t o du st db =>
    (update_action_item now s aid t o du st db).2

def applyOps (s : IncidentRecord) (ops : List LedgerOp) : IncidentRecord :=
  ops.foldl applyOp s

/-- The ids of the structured entries, in order. -/
def entryIds (l : List RawEntry) : List Int :=
  l.filterMap (fun e => match e with | .item d => d.id | _ => none)

def idsOf (s : IncidentRecord) : List Int :=
  match s.actions with
  | .list l => entryIds l
  | _ => []

def nextOf (s : IncidentRecord) : Int :=
  match s.next_action_id with
  | .intVal n => n
  | .absent => 1

/-- Every entry is a structured item carrying an integer id. -/
def EntriesOk (l : List RawEntry) : Prop :=
  ∀ e ∈ l, ∃ d k, e = RawEntry.item d ∧ d.id = some k

/-- The ledger invariant: a list of structured items, an integer counter
that is at least 1, duplicate-free ids, and every id in `[1, next)`. -/
def LedgerInv (s : IncidentRecord) : Prop :=
  (∃ l, s.actions = .list l ∧ EntriesOk l) ∧
  (∃ N, s.next_action_id = .intVal N ∧ 1 ≤ N) ∧
  (idsOf s).Nodup ∧
  (∀ k ∈ idsOf s, 1 ≤ k ∧ k < nextOf s)

theorem entryIds_map_item (items : List RawItem) :
    entryIds (items.map RawEntry.item) = items.filterMap RawItem.id := by
  induction items with
  | nil => rfl
  | cons d rest ih => simp [entryIds, List.filterMap_cons] at ih ⊢; rw [ih]

theorem filterMap_of_map_some (f : RawItem → Option Int) :
    ∀ (items : List RawItem) (ids : List Int),
      items.map f = ids.map some → items.filterMap f = ids := by
  intro items
  induction items with
  | nil => intro ids h; cases ids <;> simp at h ⊢
  | cons d rest ih =>
      intro ids h
      cases ids with
      | nil => simp at h
      | cons k ks =>
          simp only [List.map_cons, List.cons.injEq] at h
          simp [List.filterMap_cons, h.1, ih ks h.2]

theorem headIsStr_of_entriesOk (l : List RawEntry) (h : EntriesOk l) :
    headIsStr l = false := by
  cases l with
  | nil => rfl
  | cons e rest =>
      obtain ⟨d, k, rfl, _⟩ := h e (by simp)
      rfl

theorem normItem_id_keep (now : String) (next : Int) (d : RawItem) (k : Int)
    (hk : d.id = some k) :
    (normItem now next d).2.1.id = some k ∧ (normItem now next d).2.2 = next := by
  unfold normItem
  rw [hk]
  exact ⟨rfl, rfl⟩

theorem normLoop_ids_of_ok (now : String) :
    ∀ (l : List RawEntry) (next maxId : Int), EntriesOk l →
      (normLoop now l next maxId).1.map RawItem.id = (entryIds l).map some ∧
      (normLoop now l next maxId).2.1 = next := by
  intro l
  induction l with
  | nil => intro next maxId _; simp [normLoop, entryIds]
  | cons e rest ih =>
      intro next maxId h
      obtain ⟨d, k, rfl, hk⟩ := h e (by simp)
      obtain ⟨hid, hnext⟩ := normItem_id_keep now next d k hk
      have hrest : EntriesOk rest := fun x hx => h x (List.mem_cons_of_mem _ hx)
      simp only [normLoop]
      rw [hnext]
      obtain ⟨ih1, ih2⟩ := ih next (max maxId (normItem now next d).1) hrest
      simp only [List.map_cons, ih1, ih2, hid]
      simp [entryIds, List.filterMap_cons, hk]

theorem normalizeList_of_ok (now : String) (l : List RawEntry) (N : Int)
    (hok : EntriesOk l) :
    (normalizeList now l N).1.map RawItem.id = (entryIds l).map some ∧
    N ≤ (normalizeList now l N).2 ∧ 1 ≤ (normalizeList now l N).2 := by
  obtain ⟨h1, h2⟩ := normLoop_ids_of_ok now l N 0 hok
  unfold normalizeList
  rw [headIsStr_of_entriesOk l hok]
  simp only [Bool.false_eq_true, if_false]
  refine ⟨h1, ?_, ?_⟩ <;> rw [h2] <;> omega

theorem map_some_mem (items : List RawItem) (ids : List Int)
    (h : items.map RawItem.id = ids.map some) :
    ∀ d ∈ items, ∃ k, d.id = some k := by
  intro d hd
  have hmem : d.id ∈ items.map RawItem.id := List.mem_map_of_mem _ hd
  rw [h] at hmem
  obtain ⟨k, _, hk⟩ := List.mem_map.1 hmem
  exact ⟨k, hk.symm⟩

theorem idsOf_of_list (s : IncidentRecord) (l : List RawEntry)
    (hl : s.actions = .list l) : idsOf s = entryIds l := by
  unfold idsOf
  rw [hl]

theorem nextOf_of_int (s : IncidentRecord) (N : Int)
    (hN : s.next_action_id = .intVal N) : nextOf s = N := by
  unfold nextOf
  rw [hN]

theorem normalize_preserves_inv (now : String) (s : IncidentRecord)
    (h : LedgerInv s) :
    LedgerInv (normalize_actions now s) ∧
    idsOf (normalize_actions now s) = idsOf s ∧
    nextOf s ≤ nextOf (normalize_actions now s) := by
  obtain ⟨⟨l, hl, hok⟩, ⟨N, hN, hN1⟩, hnd, hbd⟩ := h
  have heq := normalize_actions_on_list now s l hl
  have hvalid : validNextInt s.next_action_id = N := by
    rw [hN]; unfold validNextInt; dsimp only; rw [if_neg (by omega)]
  rw [hvalid] at heq
  obtain ⟨h1, h2, h3⟩ := normalizeList_of_ok now l N hok
  have hacts : (normalize_actions now s).actions =
      .list ((normalizeList now l N).1.map RawEntry.item) := by rw [heq]
  have hnext : (normalize_actions now s).next_action_id =
      .intVal (normalizeList now l N).2 := by rw [heq]
  have hidm : idsOf (normalize_actions now s) = entryIds l := by
    rw [idsOf_of_list _ _ hacts, entryIds_map_item,
      filterMap_of_map_some RawItem.id _ _ h1]
  have hids : idsOf s = entryIds l := idsOf_of_list s l hl
  have hnextold : nextOf s = N := nextOf_of_int s N hN
  have hnextnew : nextOf (normalize_actions now s) = (normalizeList now l N).2 :=
    nextOf_of_int _ _ hnext
  refine ⟨⟨⟨_, hacts, ?_⟩, ⟨_, hnext, h3⟩, ?_, ?_⟩, ?_, ?_⟩
  · intro e he
    obtain ⟨d, hd, rfl⟩ := List.mem_map.1 he
    obtain ⟨k, hk⟩ := map_some_mem _ _ h1 d hd
    exact ⟨d, k, rfl, hk⟩
  · rw [hidm, ← hids]; exact hnd
  · intro k hk
    rw [hidm, ← hids] at hk
    obtain ⟨hk1, hk2⟩ := hbd k hk
    rw [hnextnew]
    rw [hnextold] at hk2
    omega
  · rw [hidm, hids]
  · rw [hnextnew, hnextold]; exact h2

theorem add_preserves_inv (now : String) (s : IncidentRecord) (text : String)
    (cb ow du : Option String) (h : LedgerInv s) :
    LedgerInv (add_action_item now s text cb ow du).2 ∧
    ∃ t, idsOf (add_action_item now s text cb ow du).2 = idsOf s ++ t := by
  obtain ⟨hinv1, hids1, _⟩ := normalize_preserves_inv now s h
  obtain ⟨⟨l1, hl1, hok1⟩, ⟨N1, hN1, hN11⟩, hnd1, hbd1⟩ := hinv1
  have hids1l : idsOf (normalize_actions now s) = entryIds l1 :=
    idsOf_of_list _ l1 hl1
  have hnext1 : nextOf (normalize_actions now s) = N1 := nextOf_of_int _ _ hN1
  by_cases he : pyStrip text = ""
  · have hstate : (add_action_item now s text cb ow du).2 =
        normalize_actions now s := by
      unfold add_action_item
      simp [he]
    rw [hstate]
    exact ⟨⟨⟨l1, hl1, hok1⟩, ⟨N1, hN1, hN11⟩, hnd1, hbd1⟩, [],
      by simp [hids1]⟩
  · have hcur : currentNextId (normalize_actions now s).next_action_id = N1 := by
      rw [hN1]; unfold currentNextId; dsimp only; rw [if_neg (by omega)]
    have hae : actionEntries (normalize_actions now s) = l1 := by
      unfold actionEntries; rw [hl1]
    have hacts2 : (add_action_item now s text cb ow du).2.actions =
        .list (l1 ++ [.item (RawItem.mk (some N1) (some (pyStrip text)) ow du
          (some "open") (some now) cb none none)]) := by
      unfold add_action_item
      simp [he, hcur, hae]
    have hnext2 : (add_action_item now s text cb ow du).2.next_action_id =
        .intVal (N1 + 1) := by
      unfold add_action_item
      simp [he, hcur]
    have hids2 : idsOf (add_action_item now s text cb ow du).2 =
        entryIds l1 ++ [N1] := by
      rw [idsOf_of_list _ _ hacts2]
      simp [entryIds, List.filterMap_append, List.filterMap_cons]
    have hnext2v : nextOf (add_action_item now s text cb ow du).2 = N1 + 1 :=
      nextOf_of_int _ _ hnext2
    refine ⟨⟨⟨_, hacts2, ?_⟩, ⟨N1 + 1, hnext2, by omega⟩, ?_, ?_⟩,
      ⟨[N1], by rw [hids2, ← hids1, hids1l]⟩⟩
    · intro e he2
      rcases List.mem_append.1 he2 with hmem | hmem
      · exact hok1 e hmem
      · rcases List.mem_singleton.1 hmem with rfl
        exact ⟨_, N1, rfl, rfl⟩
    · rw [hids2]
      rw [hids1l] at hnd1
      rw [List.nodup_append]
      refine ⟨hnd1, by simp, ?_⟩
      intro k hk hk2
      rcases List.mem_singleton.1 hk2 with rfl
      have := hbd1 k (by rw [hids1l]; exact hk)
      rw [hnext1] at this
      omega
    · intro k hk
      rw [hids2] at hk
      rw [hnext2v]
      rcases List.mem_append.1 hk with hmem | hmem
      · have := hbd1 k (by rw [hids1l]; exact hmem)
        rw [hnext1] at this
        omega
      · rcases List.mem_singleton.1 hmem with rfl
        omega

theorem entryIds_cons_item (d : RawItem) (l : List RawEntry) (k : Int)
    (hk : d.id = some k) : entryIds (.item d :: l) = k :: entryIds l := by
  simp [entryIds, List.filterMap_cons, hk]

theorem updateFirst_entries_ok (now : String) (aid : Int)
    (t o du st db : Option String) :
    ∀ l, EntriesOk l →
      entryIds (updateFirst now aid t o du st db l).2 = entryIds l ∧
      EntriesOk (updateFirst now aid t o du st db l).2 := by
  intro l
  induction l with
  | nil =>
      refine fun _ => ⟨rfl, fun e he => absurd he ?_⟩
      simp [updateFirst]
  | cons e rest ih =>
      intro h
      obtain ⟨d, k, rfl, hk⟩ := h e (by simp)
      have hrest : EntriesOk rest := fun x hx => h x (List.mem_cons_of_mem _ hx)
      obtain ⟨ih1, ih2⟩ := ih hrest
      by_cases hid : d.id == some aid
      · simp only [updateFirst, if_pos hid]
        constructor
        · rw [entryIds_cons_item _ _ k (by rw [update_fields_id_eq]; exact hk),
              entryIds_cons_item _ _ k hk]
        · intro e2 he2
          rcases List.mem_cons.1 he2 with rfl | hmem
          · exact ⟨_, k, rfl, by rw [update_fields_id_eq]; exact hk⟩
          · exact h _ (List.mem_cons_of_mem _ hmem)
      · simp only [updateFirst, if_neg hid]
        constructor
        · rw [entryIds_cons_item _ _ k hk, entryIds_cons_item _ _ k hk, ih1]
        · intro e2 he2
          rcases List.mem_cons.1 he2 with rfl | hmem
          · exact ⟨d, k, rfl, hk⟩
          · exact ih2 _ hmem

theorem update_preserves_inv (now : String) (s : IncidentRecord) (aid : Int)
    (t o du st db : Option String) (h : LedgerInv s) :
    LedgerInv (update_action_item now s aid t o du st db).2 ∧
    idsOf (update_action_item now s aid t o du st db).2 = idsOf s := by
  obtain ⟨hinv1, hids1, _⟩ := normalize_preserves_inv now s h
  obtain ⟨⟨l1, hl1, hok1⟩, ⟨N1, hN1, hN11⟩, hnd1, hbd1⟩ := hinv1
  have hids1l : idsOf (normalize_actions now s) = entryIds l1 :=
    idsOf_of_list _ l1 hl1
  have hnext1 : nextOf (normalize_actions now s) = N1 := nextOf_of_int _ _ hN1
  have hae : actionEntries (normalize_actions now s) = l1 := by
    unfold actionEntries; rw [hl1]
  obtain ⟨hu1, hu2⟩ := updateFirst_entries_ok now aid t o du st db l1 hok1
  have hacts2 : (update_action_item now s aid t o du st db).2.actions =
      .list (updateFirst now aid t o du st db l1).2 := by
    unfold update_action_item
    simp [hae]
  have hnext2 : (update_action_item now s aid t o du st db).2.next_action_id =
      .intVal N1 := by
    unfold update_action_item
    simp [hN1]
  have hids2 : idsOf (update_action_item now s aid t o du st db).2 =
      entryIds l1 := by
    rw [idsOf_of_list _ _ hacts2, hu1]
  refine ⟨⟨⟨_, hacts2, hu2⟩, ⟨N1, hnext2, hN11⟩, ?_, ?_⟩, ?_⟩
  · rw [hids2, ← hids1l]; exact hnd1
  · intro k hk
    rw [hids2, ← hids1l] at hk
    have := hbd1 k hk
    rw [hnext1] at this
    rw [nextOf_of_int _ _ hnext2]
    exact this
  · rw [hids2, ← hids1l, hids1]

theorem applyOp_preserves_inv (s : IncidentRecord) (op : LedgerOp)
    (h : LedgerInv s) :
    LedgerInv (applyOp s op) ∧ ∃ t, idsOf (applyOp s op) = idsOf s ++ t := by
  cases op with
  | normalizeOp now =>
      obtain ⟨h1, h2, _⟩ := normalize_preserves_inv now s h
      exact ⟨h1, [], by simp [applyOp, h2]⟩
  | addOp now text cb ow du =>
      exact add_preserves_inv now s text cb ow du h
  | updateOp now aid t o du st db =>
      obtain ⟨h1, h2⟩ := update_preserves_inv now s aid t o du st db h
      exact ⟨h1, [], by simp [applyOp, h2]⟩

theorem applyOps_inv : ∀ (ops : List LedgerOp) (s : IncidentRecord),
    LedgerInv s → LedgerInv (applyOps s ops) := by
  intro ops
  induction ops with
  | nil => exact fun s h => h
  | cons op rest ih => exact fun s h => ih _ (applyOp_preserves_inv s op h).1

/-- The record created by `start_incident` (timeline already holding the
"Incident detected" event). -/
def startRecord (now0 : String) : IncidentRecord :=
  { freshIncidentRecord with timeline := [⟨now0, "Incident detected"⟩] }

theorem startRecord_inv (now0 : String) : LedgerInv (startRecord now0) := by
  refine ⟨⟨[], rfl, ?_⟩, ⟨1, rfl, by norm_num⟩, ?_, ?_⟩ <;>
    simp [EntriesOk, idsOf, entryIds, startRecord, freshIncidentRecord]

/-- C7: starting from a freshly started channel record, after any sequence
of ledger operations the action ids are duplicate-free, every id lies
strictly below the `next_action_id` counter (and is at least 1), and one
further operation can only append fresh ids at the end — existing ids are
never changed or reused. -/
theorem ledger_ids_invariant (now0 : String) (ops : List LedgerOp) :
    start_incident now0 none = (true, some (startRecord now0)) ∧
    (idsOf (applyOps (startRecord now0) ops)).Nodup ∧
    (∀ k ∈ idsOf (applyOps (startRecord now0) ops),
      1 ≤ k ∧ k < nextOf (applyOps (startRecord now0) ops)) ∧
    ∀ op, ∃ t, idsOf (applyOp (applyOps (startRecord now0) ops) op) =
      idsOf (applyOps (startRecord now0) ops) ++ t := by
  have hinv := applyOps_inv ops (startRecord now0) (startRecord_inv now0)
  exact ⟨rfl, hinv.2.2.1, hinv.2.2.2,
    fun op => (applyOp_preserves_inv _ op hinv).2⟩

/-- C8: at the message-processing layer a detected action whose text
exactly equals an existing *open* item's text is suppressed — nothing is
added and the state is only the normalised one. Done items are not
consulted: whenever no open item matches (no matter what the done items
hold), a fresh open item with the current next id and the stripped text
is appended. -/
theorem action_dedup_spec (now today sender line : String)
    (st : IncidentRecord) (action : String) :
    ((split_actions now st).1.any (fun a => a.text.getD "" == action) = true →
      action_block now today sender line st action =
        ((split_actions now st).2.2, false)) ∧
    ((split_actions now st).1.any (fun a => a.text.getD "" == action) = false →
      pyStrip action ≠ "" →
      ∃ it,
        (add_action_item now (split_actions now st).2.2 action sender
            (infer_owner_from_text action) (extract_eta today line)).1 =
          .ok it ∧
        it.status = some "open" ∧ it.text = some (pyStrip action) ∧
        it.id = some (currentNextId
          (normalize_actions now (split_actions now st).2.2).next_action_id) ∧
        (action_block now today sender line st action).2 = true ∧
        (action_block now today sender line st action).1.actions =
          .list (actionEntries
            (normalize_actions now (split_actions now st).2.2) ++ [.item it])) := by
  constructor
  · intro h
    unfold action_block
    dsimp only
    simp [h]
  · intro h hstr
    cases h2 : (add_action_item now (split_actions now st).2.2 action sender
        (infer_owner_from_text action) (extract_eta today line)).1 with
    | error e =>
        exfalso
        have hiff := (add_action_item_spec now (split_actions now st).2.2 action
          sender (infer_owner_from_text action) (extract_eta today line)).1
        exact hstr (hiff.1 ⟨e, h2⟩)
    | ok it =>
        have hp : (add_action_item now (split_actions now st).2.2 action sender
            (infer_owner_from_text action) (extract_eta today line)) =
            (Except.ok it, (add_action_item now (split_actions now st).2.2
              action sender (infer_owner_from_text action)
              (extract_eta today line)).2) := by
          rw [← h2]
        refine ⟨it, rfl, ?_, ?_, ?_, ?_, ?_⟩
        · exact ((add_action_item_spec now _ action sender _ _).2 it h2).2.1
        · exact ((add_action_item_spec now _ action sender _ _).2 it h2).2.2.1
        · exact ((add_action_item_spec now _ action sender _ _).2 it h2).1
        · unfold action_block
          dsimp only
          simp only [h, Bool.false_eq_true, if_false]
          rw [hp]
        · unfold action_block
          dsimp only
          simp only [h, Bool.false_eq_true, if_false]
          rw [hp]
          exact ((add_action_item_spec now _ action sender _ _).2 it h2).2.2.2

/-- A channel record whose only item is done and carries the text
"fix db". -/
def stDoneSame : IncidentRecord :=
  { freshIncidentRecord with
    actions := .list [.item (RawItem.mk (some 1) (some "fix db") none none
      (some "done") (some "t0") none (some "t1") (some "<@U9>"))],
    next_action_id := .intVal 2 }

theorem action_dedup_spec_witness :
    (action_block "t" "d" "<@U1>" "fix db" stOneOpen "fix db" =
      ((split_actions "t" stOneOpen).2.2, false)) ∧
    ∃ it,
      (add_action_item "t" (split_actions "t" stDoneSame).2.2 "fix db"
          (some "<@U1>") (infer_owner_from_text "fix db")
          (extract_eta "d" "fix db")).1 = .ok it ∧
      it.status = some "open" ∧ it.text = some (pyStrip "fix db") ∧
      it.id = some (currentNextId
        (normalize_actions "t" (split_actions "t" stDoneSame).2.2).next_action_id) ∧
      (action_block "t" "d" "<@U1>" "fix db" stDoneSame "fix db").2 = true ∧
      (action_block "t" "d" "<@U1>" "fix db" stDoneSame "fix db").1.actions =
        .list (actionEntries
          (normalize_actions "t" (split_actions "t" stDoneSame).2.2) ++
          [.item it]) :=
  ⟨(action_dedup_spec "t" "d" "<@U1>" "fix db" stOneOpen "fix db").1 (by decide),
   (action_dedup_spec "t" "d" "<@U1>" "fix db" stDoneSame "fix db").2
     (by decide) (by decide)⟩

/-- C1 counterexample: with an incident already active, a message whose
first line classifies MEDIUM is dropped whole — the handler returns the
context unchanged — even though running its lines through the field
extractors (STEP 2) would have mutated the state (the second line adds an
action item). The MEDIUM `return` sits outside the inactivity guard. -/
theorem medium_halts_despite_active_cex :
    handle_message "t" "d" ⟨some (startRecord "t0"), none⟩
        "there is a regression in checkout\ninvestigating" (some "U1") =
      ⟨some (startRecord "t0"), none⟩ ∧
    classify_incident_intent "there is a regression in checkout" = "MEDIUM" ∧
    (processLines "t" "d" "<@U1>" "U1"
        (normalize_actions "t" (startRecord "t0"))
        (linesOf "there is a regression in checkout\ninvestigating")).1.actions ≠
      (normalize_actions "t" (startRecord "t0")).actions := by
  decide

theorem step1_active (now : String) (pend : Option String)
    (r : IncidentRecord) :
    ∀ lines, step1 now ⟨some r, pend⟩ lines =
      (if firstNonLowIsMedium lines = true then
        Step1Out.halted ⟨some r, pend⟩
      else Step1Out.proceed false ⟨some r, pend⟩) := by
  intro lines
  induction lines with
  | nil => simp [step1, firstNonLowIsMedium]
  | cons line rest ih =>
      by_cases hH : classify_incident_intent line = "HIGH"
      · simp [step1, firstNonLowIsMedium, hH, start_incident]
      · by_cases hM : classify_incident_intent line = "MEDIUM"
        · simp [step1, firstNonLowIsMedium, hH, hM]
        · simp only [step1, firstNonLowIsMedium, hH, hM, if_false]
          exact ih

/-- C1 (amended): with an incident active on the channel, the handler runs
every trimmed non-empty line of the message through the field extractors
iff no MEDIUM-classified line precedes the first HIGH-classified line in
the STEP-1 scan. If the first non-LOW line is MEDIUM the whole message is
dropped and the context — incident record included — is returned
unchanged, even though an incident is active (the MEDIUM early-return is
not limited to the inactive case); otherwise STEP 2 processes every line
of the message over the normalised record. -/
theorem medium_halting_amended (now today : String) (pend : Option String)
    (r : IncidentRecord) (text : String) (uid : String) (htext : text ≠ "") :
    (firstNonLowIsMedium (linesOf text) = true →
      handle_message now today ⟨some r, pend⟩ text (some uid) =
        ⟨some r, pend⟩) ∧
    (firstNonLowIsMedium (linesOf text) = false →
      handle_message now today ⟨some r, pend⟩ text (some uid) =
        ⟨some
          (if (processLines now today ("<@" ++ uid ++ ">") uid
                (normalize_actions now r) (linesOf text)).2 then
            { (processLines now today ("<@" ++ uid ++ ">") uid
                (normalize_actions now r) (linesOf text)).1 with
              just_started := false }
          else
            (processLines now today ("<@" ++ uid ++ ">") uid
              (normalize_actions now r) (linesOf text)).1), pend⟩) := by
  unfold handle_message
  rw [if_neg (by simp [htext])]
  dsimp only
  rw [step1_active]
  constructor
  · intro hmed
    rw [if_pos hmed]
  · intro hmed
    rw [if_neg (by simp [hmed])]
    dsimp only
    rw [Bool.or_false]
    simp only [Option.getD_some]

theorem medium_halting_amended_witness :
    handle_message "t" "d" ⟨some (startRecord "t0"), none⟩
        "there is a regression in checkout" (some "U1") =
      ⟨some (startRecord "t0"), none⟩ ∧
    handle_message "t" "d" ⟨some (startRecord "t0"), none⟩ "investigating"
        (some "U1") =
      ⟨some
        (if (processLines "t" "d" "<@U1>" "U1"
              (normalize_actions "t" (startRecord "t0"))
              (linesOf "investigating")).2 then
          { (processLines "t" "d" "<@U1>" "U1"
              (normalize_actions "t" (startRecord "t0"))
              (linesOf "investigating")).1 with
            just_started := false }
        else
          (processLines "t" "d" "<@U1>" "U1"
            (normalize_actions "t" (startRecord "t0"))
            (linesOf "investigating")).1), none⟩ :=
  ⟨(medium_halting_amended "t" "d" none (startRecord "t0")
      "there is a regression in checkout" "U1" (by decide)).1 (by decide),
   (medium_halting_amended "t" "d" none (startRecord "t0") "investigating"
      "U1" (by decide)).2 (by decide)⟩
